import Mathlib

set_option maxHeartbeats 1000000

/-!
Verification development for the ChatBots repository: a Next.js API route
(`app/api/chat/route.ts`, the "Stream Reformatter") that re-encodes an OpenAI
server-sent-event stream into a line-prefixed protocol, and a React component
(`components/chatbot.tsx`, the "Incremental Reply Renderer") that parses that
protocol and folds delta tokens into the conversation state.

Byte chunks are modelled as decoded text chunks: both loops decode with
`TextDecoder.decode(chunk, { stream: true })`, which buffers incomplete UTF-8
sequences across chunks, so the decoded text of a chunk sequence concatenates
to the decoded text of the whole stream; each decoded character lands in the
chunk holding its final byte.  All character-level definitions below therefore
work on the decoded text.
-/

namespace ChatBots

/-! ### JavaScript string primitives shared by both stream loops -/

/-- Whitespace characters recognized by the JavaScript `String.prototype.trim`
(ECMAScript WhiteSpace and LineTerminator sets). -/
def isJsWsChar (c : Char) : Bool :=
  c = ' ' || c = '\t' || c = '\n' || c = '\r' ||
  c.toNat = 11 || c.toNat = 12 || c.toNat = 0xA0 || c.toNat = 0xFEFF ||
  c.toNat = 0x1680 || (0x2000 ≤ c.toNat && c.toNat ≤ 0x200A) ||
  c.toNat = 0x2028 || c.toNat = 0x2029 || c.toNat = 0x202F ||
  c.toNat = 0x205F || c.toNat = 0x3000

/-- JavaScript `String.prototype.trim`, on the character list of a string. -/
def jsTrim (l : List Char) : List Char :=
  ((l.dropWhile isJsWsChar).reverse.dropWhile isJsWsChar).reverse

/-- JavaScript `text.split("\n")` on the character list: splits at every
newline, keeping empty segments (`"a\n".split` yields `["a", ""]`). -/
def splitOnNl : List Char → List (List Char)
  | [] => [[]]
  | c :: cs =>
    if c = '\n' then [] :: splitOnNl cs
    else
      match splitOnNl cs with
      | [] => [[c]]
      | l :: ls => (c :: l) :: ls

/-- Both loops turn a decoded chunk into the lines they iterate over:
`text.split("\n").filter((line) => line.trim() !== "")`.  The untrimmed line
is what gets processed; trimming is only the blank-line test. -/
def chunkLines (text : String) : List String :=
  ((splitOnNl text.data).filter (fun l => !(jsTrim l).isEmpty)).map String.mk

/-! ### JSON values

A model of the JavaScript `JSON` built-ins used by the route and the
component.  Numbers keep their source lexeme: no claim of this development
depends on numeric value normalization (the streamed content fields are
strings), while parse success and failure, which the claims do depend on,
follow the JSON grammar exactly. -/

inductive Json where
  | null
  | bool (b : Bool)
  | num (raw : String)
  | str (s : String)
  | arr (elems : List Json)
  | obj (fields : List (String × Json))
deriving Inhabited

/-- Lowercase hexadecimal digit, as emitted by `JSON.stringify` for control
characters. -/
def hexDigitChar (n : Nat) : Char :=
  if n < 10 then Char.ofNat (48 + n) else Char.ofNat (87 + n)

/-- Numeric value of a hexadecimal digit character, as accepted by the
`\uXXXX` escape of `JSON.parse`. -/
def hexVal (c : Char) : Option Nat :=
  if '0' ≤ c ∧ c ≤ '9' then some (c.toNat - 48)
  else if 'a' ≤ c ∧ c ≤ 'f' then some (c.toNat - 87)
  else if 'A' ≤ c ∧ c ≤ 'F' then some (c.toNat - 55)
  else none

/-- Escape of one character inside a `JSON.stringify` string literal: the five
short escapes, `\u00XX` for the remaining control characters, a backslash
escape for quote and backslash, and every other character literally
(non-ASCII characters are not escaped). -/
def escapeChar (c : Char) : List Char :=
  if c = '"' then ['\\', '"']
  else if c = '\\' then ['\\', '\\']
  else if c = Char.ofNat 8 then ['\\', 'b']
  else if c = '\t' then ['\\', 't']
  else if c = '\n' then ['\\', 'n']
  else if c = Char.ofNat 12 then ['\\', 'f']
  else if c = '\r' then ['\\', 'r']
  else if c.toNat < 0x20 then
    ['\\', 'u', '0', '0', hexDigitChar (c.toNat / 16), hexDigitChar (c.toNat % 16)]
  else [c]

/-- Escaped body of a string literal. -/
def escapeBody (s : List Char) : List Char :=
  s.flatMap escapeChar

/-- The `JSON.stringify` encoding of a string value. -/
def stringifyString (s : String) : String :=
  String.mk ('"' :: escapeBody s.data ++ ['"'])

mutual

/-- The `JSON.stringify` encoding of a parsed JSON value.  Object fields keep insertion
order, matching the JavaScript semantics.  Number lexemes are emitted as
kept; numeric re-formatting is not modelled (see `Json.num`). -/
def jsonStringify : Json → String
  | .null => "null"
  | .bool true => "true"
  | .bool false => "false"
  | .num raw => raw
  | .str s => stringifyString s
  | .arr elems => "[" ++ String.intercalate "," (jsonStringifyList elems) ++ "]"
  | .obj fields => "\x7b" ++ String.intercalate "," (jsonStringifyFields fields) ++ "\x7d"

def jsonStringifyList : List Json → List String
  | [] => []
  | j :: js => jsonStringify j :: jsonStringifyList js

def jsonStringifyFields : List (String × Json) → List String
  | [] => []
  | (k, v) :: fs => (stringifyString k ++ ":" ++ jsonStringify v) :: jsonStringifyFields fs

end

/-! ### JSON parsing (`JSON.parse`) -/

/-- JSON insignificant whitespace. -/
def isJsonWs (c : Char) : Bool :=
  c = ' ' || c = '\t' || c = '\n' || c = '\r'

/-- Skip insignificant whitespace. -/
def skipWs (cs : List Char) : List Char :=
  cs.dropWhile isJsonWs

/-- Split a leading run of decimal digits. -/
def takeDigits (cs : List Char) : List Char × List Char :=
  (cs.takeWhile Char.isDigit, cs.dropWhile Char.isDigit)

/-- Integer part of a JSON number: `0`, or a nonzero digit followed by
digits (leading zeros are rejected, as by `JSON.parse`). -/
def parseIntPart : List Char → Option (List Char × List Char)
  | [] => none
  | c :: r =>
    if c = '0' then some (['0'], r)
    else if c.isDigit then
      some (c :: (takeDigits r).1, (takeDigits r).2)
    else none

/-- Optional fraction part `.digits` of a JSON number. -/
def parseFrac (cs : List Char) : Option (List Char × List Char) :=
  match cs with
  | '.' :: r =>
    if (takeDigits r).1.isEmpty then none
    else some ('.' :: (takeDigits r).1, (takeDigits r).2)
  | _ => some ([], cs)

/-- Optional exponent part `e[+-]digits` of a JSON number. -/
def parseExp (cs : List Char) : Option (List Char × List Char) :=
  match cs with
  | c :: r =>
    if c = 'e' ∨ c = 'E' then
      match r with
      | s :: r2 =>
        if s = '+' ∨ s = '-' then
          if (takeDigits r2).1.isEmpty then none
          else some (c :: s :: (takeDigits r2).1, (takeDigits r2).2)
        else
          if (takeDigits r).1.isEmpty then none
          else some (c :: (takeDigits r).1, (takeDigits r).2)
      | [] => none
    else some ([], cs)
  | [] => some ([], cs)

/-- JSON number, keeping the accepted lexeme. -/
def parseNumber (cs : List Char) : Option (Json × List Char) :=
  let p := match cs with
    | '-' :: r => ((['-'] : List Char), r)
    | _ => (([] : List Char), cs)
  (parseIntPart p.2).bind fun ip =>
  (parseFrac ip.2).bind fun fp =>
  (parseExp fp.2).map fun ep =>
  (Json.num (String.mk (p.1 ++ ip.1 ++ fp.1 ++ ep.1)), ep.2)

/-- Decode one escape sequence after a backslash inside a string literal.
`\uXXXX` surrogate pairs are combined; a lone surrogate, which a Lean `Char`
cannot carry, is modelled as U+FFFD (what it becomes on UTF-8 re-encoding).
No claim exercises lone surrogates. -/
def readEscape : List Char → Option (Char × List Char)
  | '"' :: r => some ('"', r)
  | '\\' :: r => some ('\\', r)
  | '/' :: r => some ('/', r)
  | 'b' :: r => some (Char.ofNat 8, r)
  | 'f' :: r => some (Char.ofNat 12, r)
  | 'n' :: r => some ('\n', r)
  | 'r' :: r => some ('\r', r)
  | 't' :: r => some ('\t', r)
  | 'u' :: h1 :: h2 :: h3 :: h4 :: r =>
    match hexVal h1, hexVal h2, hexVal h3, hexVal h4 with
    | some a, some b, some c, some d =>
      let n := ((a * 16 + b) * 16 + c) * 16 + d
      if 0xD800 ≤ n ∧ n < 0xDC00 then
        match r with
        | '\\' :: 'u' :: g1 :: g2 :: g3 :: g4 :: r2 =>
          (match hexVal g1, hexVal g2, hexVal g3, hexVal g4 with
           | some e, some f, some g, some h =>
             let m := ((e * 16 + f) * 16 + g) * 16 + h
             if 0xDC00 ≤ m ∧ m < 0xE000 then
               some (Char.ofNat (0x10000 + (n - 0xD800) * 0x400 + (m - 0xDC00)), r2)
             else some (Char.ofNat 0xFFFD, r)
           | _, _, _, _ => some (Char.ofNat 0xFFFD, r))
        | _ => some (Char.ofNat 0xFFFD, r)
      else if 0xDC00 ≤ n ∧ n < 0xE000 then some (Char.ofNat 0xFFFD, r)
      else some (Char.ofNat n, r)
    | _, _, _, _ => none
  | _ => none

/-- Body of a string literal after the opening quote, up to and including the
closing quote.  Unescaped control characters are rejected, as by
`JSON.parse`.  The fuel argument dominates the input length at every call
site. -/
def parseStringBody : Nat → List Char → Option (List Char × List Char)
  | 0, _ => none
  | _ + 1, [] => none
  | fuel + 1, c :: rest =>
    if c = '"' then some ([], rest)
    else if c = '\\' then
      (readEscape rest).bind fun p =>
        (parseStringBody fuel p.2).map fun q => (p.1 :: q.1, q.2)
    else if c.toNat < 0x20 then none
    else (parseStringBody fuel rest).map fun q => (c :: q.1, q.2)

mutual

/-- One JSON value, preceded by optional whitespace. -/
def parseValue : Nat → List Char → Option (Json × List Char)
  | 0, _ => none
  | fuel + 1, cs =>
    match skipWs cs with
    | [] => none
    | '"' :: r => (parseStringBody fuel r).map fun p => (Json.str (String.mk p.1), p.2)
    | '[' :: r =>
      (match skipWs r with
       | ']' :: r2 => some (Json.arr [], r2)
       | _ => (parseArrayItems fuel r).map fun p => (Json.arr p.1, p.2))
    | '\x7b' :: r =>
      (match skipWs r with
       | '\x7d' :: r2 => some (Json.obj [], r2)
       | _ => (parseObjectItems fuel r).map fun p => (Json.obj p.1, p.2))
    | 't' :: 'r' :: 'u' :: 'e' :: r => some (Json.bool true, r)
    | 'f' :: 'a' :: 'l' :: 's' :: 'e' :: r => some (Json.bool false, r)
    | 'n' :: 'u' :: 'l' :: 'l' :: r => some (Json.null, r)
    | cs2 => parseNumber cs2

/-- Comma-separated array elements, consuming the closing bracket. -/
def parseArrayItems : Nat → List Char → Option (List Json × List Char)
  | 0, _ => none
  | fuel + 1, cs =>
    (parseValue fuel cs).bind fun p =>
    match skipWs p.2 with
    | ',' :: r2 => (parseArrayItems fuel r2).map fun q => (p.1 :: q.1, q.2)
    | ']' :: r2 => some ([p.1], r2)
    | _ => none

/-- Comma-separated object members, consuming the closing brace. -/
def parseObjectItems : Nat → List Char → Option (List (String × Json) × List Char)
  | 0, _ => none
  | fuel + 1, cs =>
    match skipWs cs with
    | '"' :: r =>
      (parseStringBody fuel r).bind fun kp =>
      (match skipWs kp.2 with
       | ':' :: r2 =>
         (parseValue fuel r2).bind fun vp =>
         match skipWs vp.2 with
         | ',' :: r4 => (parseObjectItems fuel r4).map fun q => ((String.mk kp.1, vp.1) :: q.1, q.2)
         | '\x7d' :: r4 => some ([(String.mk kp.1, vp.1)], r4)
         | _ => none
       | _ => none)
    | _ => none

end

/-- The `JSON.parse` entry point: one value with surrounding whitespace and nothing after it.
The fuel `2 * length + 2` dominates the recursion depth of any input, since
each nesting level consumes at least one character and at most two calls. -/
def parseJson (s : String) : Option Json :=
  match parseValue (2 * s.data.length + 2) s.data with
  | some (j, rest) => if skipWs rest = [] then some j else none
  | none => none

/-! ### JavaScript value operations on parsed JSON -/

/-- JavaScript property access `o.k` for the keys the route reads
(`choices`, `delta`, `content`): the named field of an object, with the
`JSON.parse` duplicate-key rule that the last occurrence wins, and
`undefined` (`none`) on any other value.  Arrays and strings have no
properties with these names; access on `null` throws in JavaScript, and that
throw is absorbed by the same per-line `catch` that absorbs a `none` here. -/
def jsGet (j : Json) (k : String) : Option Json :=
  match j with
  | .obj fields => fields.foldl (fun acc f => if f.1 = k then some f.2 else acc) none
  | _ => none

/-- JavaScript `x?.[0]`: first element of an array, the `0` property of an
object, a one-character string for a string, `undefined` otherwise. -/
def jsIndex0 : Json → Option Json
  | .arr elems => elems.head?
  | .obj fields => jsGet (.obj fields) "0"
  | .str s => s.data.head?.map fun c => Json.str (String.mk [c])
  | _ => none

/-- Whether a JSON number lexeme denotes zero: every digit of its integer and
fraction parts is `0` (the exponent never changes zeroness). -/
def jsonNumIsZero (raw : String) : Bool :=
  ((raw.data.takeWhile (fun c => !(c == 'e' || c == 'E'))).filter Char.isDigit).all (· == '0')

/-- JavaScript truthiness of a parsed JSON value, as tested by
`if (content)` in the route. -/
def jsTruthy : Json → Bool
  | .null => false
  | .bool b => b
  | .num raw => !jsonNumIsZero raw
  | .str s => s ≠ ""
  | .arr _ => true
  | .obj _ => true

mutual

/-- JavaScript string coercion of a parsed JSON value, as performed by
`fullContent += content` in the component.  Arrays coerce through
`Array.prototype.join(",")` with null elements becoming empty, and plain
objects to `[object Object]`.  Only the string case is reachable from
streams the route produces. -/
def jsToString : Json → String
  | .null => "null"
  | .bool true => "true"
  | .bool false => "false"
  | .num raw => raw
  | .str s => s
  | .arr elems => String.intercalate "," (jsToStringElems elems)
  | .obj _ => "[object Object]"

def jsToStringElems : List Json → List String
  | [] => []
  | .null :: js => "" :: jsToStringElems js
  | j :: js => jsToString j :: jsToStringElems js

end

/-! ### The Stream Reformatter (`app/api/chat/route.ts`) -/

/-- The fixed system prompt of the route, apostrophes written as unicode escapes. -/
def SYSTEM_PROMPT : String :=
  "You are Sparkle Assistant, a friendly and professional customer service representative for a residential and commercial cleaning business.\n\nYour responsibilities:\n- Answer questions about cleaning services (residential, commercial, deep cleaning, move-in/move-out, etc.)\n- Provide general pricing information and explain that exact quotes require an assessment\n- Help customers understand what\u0027s included in different cleaning packages\n- Assist with scheduling inquiries\n- Address common concerns about cleaning products, pet safety, and eco-friendly options\n- Collect customer information for booking requests\n\nService offerings:\n- Standard Cleaning: Regular maintenance cleaning for homes and offices\n- Deep Cleaning: Thorough top-to-bottom cleaning including baseboards, inside appliances, etc.\n- Move-In/Move-Out Cleaning: Comprehensive cleaning for property transitions\n- Commercial Cleaning: Office buildings, retail spaces, and commercial properties\n- Specialty Services: Carpet cleaning, window washing, post-construction cleanup\n\nBe helpful, warm, and professional. If you don\u0027t know specific pricing, explain that a representative will provide a custom quote. Always encourage customers to book a free consultation."

/-- One entry of a part-based rich message representation, as destructured by
the route: a `type` tag and an optional `text`. -/
structure MsgPart where
  type : String
  text : Option String
deriving DecidableEq

/-- One received message as destructured by the route:
`role: string; content?: string; parts?: Array`.  The `as` cast on the role
performs no runtime check, so the role stays an arbitrary string. -/
structure InMsg where
  role : String
  content : Option String
  parts : Option (List MsgPart)
deriving DecidableEq

/-- One message of the outgoing list sent upstream. -/
structure CoreMsg where
  role : String
  content : String
deriving DecidableEq

/-- Join of the text-typed parts:
`msg.parts?.filter((p) => p.type === "text").map((p) => p.text).join("")`.
`Array.prototype.join` coerces a missing `text` to the empty string. -/
def partsText (ps : List MsgPart) : String :=
  String.join ((ps.filter (fun p => p.type == "text")).map (fun p => p.text.getD ""))

/-- Content of one normalized message:
`msg.content || msg.parts?.filter(...).map(...).join("") || ""`.
JavaScript `||` takes the right operand when the left is falsy; for a string
falsy means empty, and a missing field is falsy.  The trailing `|| ""` maps
an absent parts chain to the empty string and an empty join to itself. -/
def coreContent (m : InMsg) : String :=
  match m.content with
  | some c =>
    if c = "" then (match m.parts with | some ps => partsText ps | none => "") else c
  | none => match m.parts with | some ps => partsText ps | none => ""

/-- One entry of `coreMessages`: role kept, content normalized. -/
def coreMessage (m : InMsg) : CoreMsg :=
  { role := m.role, content := coreContent m }

/-- The `coreMessages` array built by the route. -/
def coreMessages (messages : List InMsg) : List CoreMsg :=
  messages.map coreMessage

/-- The `messagesWithSystem` array: the fixed system message prepended to the
normalized conversation. -/
def messagesWithSystem (messages : List InMsg) : List CoreMsg :=
  { role := "system", content := SYSTEM_PROMPT } :: coreMessages messages

/-- The `finishMessage` object literal of the route, fields in insertion
order. -/
def finishMessage : Json :=
  Json.obj [("type", Json.str "finish"), ("finishReason", Json.str "stop")]

/-- The terminal line `d:` + `JSON.stringify(finishMessage)` + newline. -/
def finishLine : String :=
  "d:" ++ jsonStringify finishMessage ++ "\n"

/-- The extraction `parsed.choices?.[0]?.delta?.content` composed with
`JSON.parse(data)`.  `none` covers every way the per-line `try` block can
fail to produce a content value: unparseable data, a non-object result, a
missing or inaccessible field along the chain. -/
def extractContent (data : String) : Option Json :=
  (parseJson data).bind fun parsed =>
  (jsGet parsed "choices").bind fun choices =>
  (jsIndex0 choices).bind fun c0 =>
  (jsGet c0 "delta").bind fun delta =>
  jsGet delta "content"

/-- Output the transform enqueues for one non-blank line: the `data: `
prefix test, the `[DONE]` sentinel producing the terminal line (the code
then `continue`s to the next line rather than ending the stream), and
otherwise a `0:` delta line when a truthy content value is extracted.  The
route also appends the content to a `fullContent` variable that is never
read afterwards; it is omitted here. -/
def processLine (line : String) : List String :=
  if "data: ".data.isPrefixOf line.data then
    let data := String.mk (line.data.drop 6)
    if data = "[DONE]" then [finishLine]
    else
      match extractContent data with
      | some content =>
        if jsTruthy content then ["0:" ++ jsonStringify content ++ "\n"] else []
      | none => []
  else []

/-- Transform output for a sequence of already-split non-blank lines. -/
def transformLines (ls : List String) : List String :=
  ls.flatMap processLine

/-- Transform output for one decoded chunk: split into non-blank lines, then
process each in order. -/
def transformChunk (text : String) : List String :=
  transformLines (chunkLines text)

/-- Transform output across a whole upstream stream of decoded chunks. -/
def transformChunks (chunks : List String) : List String :=
  chunks.flatMap transformChunk

/-- The upstream fetch result as seen by the route: the `ok` flag and, when
the response streams, its body chunks. -/
structure UpstreamResponse where
  ok : Bool
  bodyChunks : Option (List String)

/-- The response the route returns: a 200 streaming response carrying the
transformed lines, or a JSON error response. -/
inductive RouteResponse where
  | stream (status : Nat) (body : List String)
  | errorJson (status : Nat) (body : String)
deriving DecidableEq

/-- Body of the catch-all failure response:
`JSON.stringify({ error: "Failed to process chat request" })`. -/
def chatErrorBody : String :=
  jsonStringify (Json.obj [("error", Json.str "Failed to process chat request")])

/-- The route handler `POST`.  The upstream response to the single `fetch`
(there is no retry) is passed as a value; `outgoing` is the request body it
was sent.  A non-ok upstream response throws inside the `try`, and the
catch-all converts any such failure into the status-500 JSON error response,
so no streaming `Response` is ever constructed on that path. -/
def POST (messages : List InMsg) (upstream : UpstreamResponse) : RouteResponse :=
  let outgoing := messagesWithSystem messages
  let _ := outgoing
  if !upstream.ok then RouteResponse.errorJson 500 chatErrorBody
  else RouteResponse.stream 200 (transformChunks (upstream.bodyChunks.getD []))

/-! ### The Incremental Reply Renderer (`components/chatbot.tsx`) -/

/-- The role union of the component `Message` interface. -/
inductive Role where
  | user
  | assistant
deriving DecidableEq

/-- String form of a role, as serialized into the request body. -/
def Role.toStr : Role → String
  | .user => "user"
  | .assistant => "assistant"

/-- The component `Message`: id, role, content. -/
structure Message where
  id : String
  role : Role
  content : String
deriving DecidableEq

/-- The fixed apology written into the placeholder on the error path. -/
def apologyMessage : String :=
  "Sorry, I encountered an error. Please try again."

/-- The functional state update used by both the per-delta republish and the
error-path overwrite:
`prev.map((m) => (m.id === targetId ? ...m with new content : m))`. -/
def updateMessageContent (msgs : List Message) (targetId : String) (newContent : String) :
    List Message :=
  msgs.map fun m => if m.id = targetId then { m with content := newContent } else m

/-- Accumulator step of the stream loop for one non-blank line: on a `0:`
line, `JSON.parse(line.slice(2))` and append to `fullContent`; a parse
failure is skipped by the inner `catch`; other lines are ignored. -/
def rendererLine (acc : String) (line : String) : String :=
  if "0:".data.isPrefixOf line.data then
    match parseJson (String.mk (line.data.drop 2)) with
    | some content => acc ++ jsToString content
    | none => acc
  else acc

/-- Final value of `fullContent` after reading a whole response stream,
chunk by chunk, starting from the empty accumulator. -/
def rendererAccumChunks (chunks : List String) : String :=
  chunks.foldl (fun acc chunk => (chunkLines chunk).foldl rendererLine acc) ""

/-- Full stream-loop step for one line: the accumulator step together with
the `setMessages` republish of the grown content into the placeholder. -/
def renderStep (assistantId : String) (st : List Message × String) (line : String) :
    List Message × String :=
  if "0:".data.isPrefixOf line.data then
    match parseJson (String.mk (line.data.drop 2)) with
    | some content =>
      let full := st.2 ++ jsToString content
      (updateMessageContent st.1 assistantId full, full)
    | none => st
  else st

/-- Full stream loop over every chunk of the response body. -/
def renderChunks (assistantId : String) (st : List Message × String) (chunks : List String) :
    List Message × String :=
  chunks.foldl (fun s chunk => (chunkLines chunk).foldl (renderStep assistantId) s) st

/-- The component state handled by `useState`: open flag, input field,
conversation list, loading flag. -/
structure ChatState where
  isOpen : Bool
  input : String
  messages : List Message
  isLoading : Bool
deriving DecidableEq

/-- Outcome of the `fetch` to the route, as observed by `sendMessage`: a
turn-level failure (rejected fetch, non-ok status, or missing body — all of
which reach the `catch`), or a successful response streaming the given
decoded chunks. -/
inductive FetchOutcome where
  | failure
  | success (chunks : List String)

/-- The request body `[...messages, userMsg].map((m) => (role, content))`
serialized to the route.  `messages` is the conversation before this turn;
the assistant placeholder is not part of it. -/
def requestBody (prev : List Message) (userMsg : Message) : List (String × String) :=
  (prev ++ [userMsg]).map fun m => (m.role.toStr, m.content)

/-- One turn of `sendMessage`, producing the final component state.  The
generated ids `user-(Date.now())` and `assistant-(Date.now())` are passed as
parameters.  In order: append the user message, set loading, append the
empty placeholder, fetch; on failure overwrite the placeholder content with
the apology; on success run the stream loop; `finally` clears loading. -/
def sendMessage (st : ChatState) (userMessage userId assistantId : String)
    (outcome : FetchOutcome) : ChatState :=
  let userMsg : Message := { id := userId, role := Role.user, content := userMessage }
  let msgs1 := st.messages ++ [userMsg]
  let msgs2 := msgs1 ++ [{ id := assistantId, role := Role.assistant, content := "" }]
  match outcome with
  | .failure =>
    { st with
        messages := updateMessageContent msgs2 assistantId apologyMessage
        isLoading := false }
  | .success chunks =>
    { st with
        messages := (renderChunks assistantId (msgs2, "") chunks).1
        isLoading := false }

/-- The form submit handler: a gate returning immediately when the trimmed
input is empty or a turn is loading, otherwise one `sendMessage` turn
followed by clearing the input. -/
def handleSubmit (st : ChatState) (userId assistantId : String) (outcome : FetchOutcome) :
    ChatState :=
  if (jsTrim st.input.data).isEmpty || st.isLoading then st
  else { sendMessage st st.input userId assistantId outcome with input := "" }

/-! ### Action traces of a turn

The state-holder interactions of `sendMessage` in program order, for the
temporal claims: each `setMessages` with the list it publishes, each
`setIsLoading`, and the single `fetch` with its serialized body. -/

inductive Action where
  | setMessagesA (msgs : List Message)
  | setLoadingA (b : Bool)
  | fetchA (body : List (String × String))
deriving DecidableEq

/-- Whether an action is the network request. -/
def Action.isFetch : Action → Bool
  | .fetchA _ => true
  | _ => false

/-- Stream-loop step for one line, also recording the `setMessages` republish
it performs (none when the line is ignored). -/
def renderStepTrace (assistantId : String) (acc : List Action × (List Message × String))
    (line : String) : List Action × (List Message × String) :=
  if "0:".data.isPrefixOf line.data then
    match parseJson (String.mk (line.data.drop 2)) with
    | some content =>
      let full := acc.2.2 ++ jsToString content
      let ms := updateMessageContent acc.2.1 assistantId full
      (acc.1 ++ [Action.setMessagesA ms], (ms, full))
    | none => acc
  else acc

/-- Stream loop over every chunk, recording republishes. -/
def renderChunksTrace (assistantId : String) (acc : List Action × (List Message × String))
    (chunks : List String) : List Action × (List Message × String) :=
  chunks.foldl (fun a chunk => (chunkLines chunk).foldl (renderStepTrace assistantId) a) acc

/-- The ordered actions of one `sendMessage` turn. -/
def sendMessageTrace (st : ChatState) (userMessage userId assistantId : String)
    (outcome : FetchOutcome) : List Action :=
  let userMsg : Message := { id := userId, role := Role.user, content := userMessage }
  let msgs1 := st.messages ++ [userMsg]
  let msgs2 := msgs1 ++ [{ id := assistantId, role := Role.assistant, content := "" }]
  [Action.setMessagesA msgs1, Action.setLoadingA true, Action.setMessagesA msgs2,
    Action.fetchA (requestBody st.messages userMsg)]
  ++ (match outcome with
      | .failure => [Action.setMessagesA (updateMessageContent msgs2 assistantId apologyMessage)]
      | .success chunks => (renderChunksTrace assistantId ([], (msgs2, "")) chunks).1)
  ++ [Action.setLoadingA false]

/-- The ordered actions of one form submission: none when the gate rejects
it, otherwise the `sendMessage` turn. -/
def handleSubmitTrace (st : ChatState) (userId assistantId : String) (outcome : FetchOutcome) :
    List Action :=
  if (jsTrim st.input.data).isEmpty || st.isLoading then []
  else sendMessageTrace st st.input userId assistantId outcome

/-- Concatenation of a list of strings, the reference value for the
accumulated delta content. -/
def concatStrings : List String → String
  | [] => ""
  | s :: l => s ++ concatStrings l

/-- A full protocol line: a newline-free, non-blank visible part followed by
one newline. -/
def GoodNl (L : String) : Prop :=
  ∃ raw : List Char, L.data = raw ++ ['\n'] ∧ '\n' ∉ raw ∧ (jsTrim raw).isEmpty = false

/-- Modelled from the spec, as amended by claim C4: the normalized content is
the supplied content when non-empty, otherwise the concatenation in document
order of the text of the text-typed parts (a missing text contributing the
empty string), otherwise the empty string. -/
def specContent (m : InMsg) : String :=
  if m.content.getD "" ≠ "" then m.content.getD ""
  else ((m.parts.getD []).filter (fun p => p.type == "text")).foldl
    (fun acc p => acc ++ p.text.getD "") ""

/-! ### Lemmas: line splitting and blank-line filtering -/

theorem splitOnNl_ne_nil (cs : List Char) : splitOnNl cs ≠ [] := by
  cases cs with
  | nil => simp [splitOnNl]
  | cons c cs =>
    simp only [splitOnNl]
    split
    · simp
    · split <;> simp

theorem splitOnNl_append (l cs : List Char) (hl : '\n' ∉ l) :
    splitOnNl (l ++ '\n' :: cs) = l :: splitOnNl cs := by
  induction l with
  | nil => simp [splitOnNl]
  | cons c l ih =>
    have hc : ¬(c = '\n') := fun h => hl (h ▸ List.mem_cons_self c l)
    have hl2 : '\n' ∉ l := fun h => hl (List.mem_cons_of_mem _ h)
    simp only [List.cons_append, splitOnNl, if_neg hc]
    simp only [List.append_eq]
    rw [ih hl2]

theorem dropWhile_nil_all (p : Char → Bool) (l : List Char) (h : l.dropWhile p = []) :
    ∀ x ∈ l, p x = true := by
  induction l with
  | nil => simp
  | cons c l ih =>
    rw [List.dropWhile_cons] at h
    intro x hx
    by_cases hc : p c = true
    · rw [if_pos hc] at h
      rcases List.mem_cons.1 hx with h1 | h1
      · exact h1 ▸ hc
      · exact ih h x h1
    · rw [if_neg hc] at h
      exact absurd h (by simp)

theorem jsTrim_cons_isEmpty (c : Char) (l : List Char) (hc : isJsWsChar c = false) :
    (jsTrim (c :: l)).isEmpty = false := by
  rw [Bool.eq_false_iff]
  intro h
  rw [List.isEmpty_iff] at h
  unfold jsTrim at h
  rw [List.dropWhile_cons, if_neg (by simp [hc]), List.reverse_eq_nil_iff] at h
  have := dropWhile_nil_all _ _ h c (by simp)
  rw [hc] at this
  exact absurd this (by simp)

theorem chunkLines_concat (part : List String) (h : ∀ L ∈ part, GoodNl L) :
    chunkLines (concatStrings part) = part.map (fun L => String.mk L.data.dropLast) := by
  induction part with
  | nil => rfl
  | cons L part ih =>
    obtain ⟨raw, hdata, hnl, hblank⟩ := h L (by simp)
    have hrest : ∀ M ∈ part, GoodNl M := fun M hM => h M (by simp [hM])
    have hdrop : L.data.dropLast = raw := by rw [hdata, List.dropLast_concat]
    show chunkLines (L ++ concatStrings part) = _
    unfold chunkLines
    rw [String.data_append, hdata, List.append_assoc, List.singleton_append,
      splitOnNl_append raw _ hnl, List.filter_cons, if_pos (by simp [hblank]),
      List.map_cons]
    have := ih hrest
    unfold chunkLines at this
    rw [this, List.map_cons, hdrop]

theorem foldl_chunks_concat {α : Type} (f : α → String → α) (init : α)
    (parts : List (List String)) (h : ∀ L ∈ parts.flatten, GoodNl L) :
    (parts.map concatStrings).foldl (fun a chunk => (chunkLines chunk).foldl f a) init =
      (parts.flatten.map (fun L => String.mk L.data.dropLast)).foldl f init := by
  induction parts generalizing init with
  | nil => rfl
  | cons part parts ih =>
    simp only [List.map_cons, List.foldl_cons, List.flatten_cons, List.map_append,
      List.foldl_append]
    rw [chunkLines_concat part (fun L hL => h L (by simp [hL]))]
    exact ih _ (fun L hL => h L (by simp [hL]))

/-! ### Lemmas: the JSON string round trip -/

theorem hexVal_hexDigitChar (n : Nat) (h : n < 16) : hexVal (hexDigitChar n) = some n := by
  interval_cases n <;> decide

theorem readEscape_u00 (n : Nat) (h : n < 32) (r : List Char) :
    readEscape ('u' :: '0' :: '0' :: hexDigitChar (n / 16) :: hexDigitChar (n % 16) :: r) =
      some (Char.ofNat n, r) := by
  have h1 : hexVal '0' = some 0 := by decide
  have h2 := hexVal_hexDigitChar (n / 16) (by omega)
  have h3 := hexVal_hexDigitChar (n % 16) (by omega)
  simp only [readEscape, h1, h2, h3]
  rw [show ((0 * 16 + 0) * 16 + n / 16) * 16 + n % 16 = n from by omega]
  rw [if_neg (by omega), if_neg (by omega)]

theorem parseStringBody_cons_escape (fuel : Nat) (c : Char) (e tail : List Char)
    (he : readEscape (e ++ tail) = some (c, tail)) (a b : List Char)
    (hq : parseStringBody fuel tail = some (a, b)) :
    parseStringBody (fuel + 1) ('\\' :: (e ++ tail)) = some (c :: a, b) := by
  simp only [parseStringBody]
  rw [if_neg (by decide), if_pos (by trivial), he]
  simp [hq]

theorem parseStringBody_escape (s : List Char) : ∀ (fuel : Nat) (rest : List Char),
    s.length < fuel →
    parseStringBody fuel (escapeBody s ++ '"' :: rest) = some (s, rest) := by
  induction s with
  | nil =>
    intro fuel rest h
    match fuel, h with
    | fuel + 1, _ =>
      show parseStringBody (fuel + 1) ('"' :: rest) = some ([], rest)
      simp [parseStringBody]
  | cons c s ih =>
    intro fuel rest h
    match fuel, h with
    | fuel + 1, h =>
      have hf : s.length < fuel := by
        simp only [List.length_cons] at h; omega
      have ihq := ih fuel rest hf
      show parseStringBody (fuel + 1) (escapeBody (c :: s) ++ '"' :: rest) = some (c :: s, rest)
      rw [show escapeBody (c :: s) = escapeChar c ++ escapeBody s from by simp [escapeBody]]
      unfold escapeChar
      split_ifs with h1 h2 h3 h4 h5 h6 h7 h8
      · subst h1
        exact parseStringBody_cons_escape fuel _ ['"'] _ rfl s rest ihq
      · subst h2
        exact parseStringBody_cons_escape fuel _ ['\\'] _ rfl s rest ihq
      · subst h3
        exact parseStringBody_cons_escape fuel _ ['b'] _ rfl s rest ihq
      · subst h4
        exact parseStringBody_cons_escape fuel _ ['t'] _ rfl s rest ihq
      · subst h5
        exact parseStringBody_cons_escape fuel _ ['n'] _ rfl s rest ihq
      · subst h6
        exact parseStringBody_cons_escape fuel _ ['f'] _ rfl s rest ihq
      · subst h7
        exact parseStringBody_cons_escape fuel _ ['r'] _ rfl s rest ihq
      · have he := readEscape_u00 c.toNat h8 (escapeBody s ++ '"' :: rest)
        rw [Char.ofNat_toNat] at he
        exact parseStringBody_cons_escape fuel c
          ['u', '0', '0', hexDigitChar (c.toNat / 16), hexDigitChar (c.toNat % 16)] _ he s rest ihq
      · show parseStringBody (fuel + 1) (c :: (escapeBody s ++ '"' :: rest)) = some (c :: s, rest)
        simp only [parseStringBody]
        rw [if_neg h1, if_neg h2, if_neg (by omega)]
        simp [ihq]

theorem length_le_escapeBody (s : List Char) : s.length ≤ (escapeBody s).length := by
  induction s with
  | nil => simp [escapeBody]
  | cons c s ih =>
    have h1 : 1 ≤ (escapeChar c).length := by
      unfold escapeChar
      split_ifs <;> simp
    simp only [escapeBody, List.flatMap_cons, List.length_append, List.length_cons]
    simp only [escapeBody] at ih
    omega

theorem skipWs_cons (c : Char) (l : List Char) (h : isJsonWs c = false) :
    skipWs (c :: l) = c :: l := by
  simp [skipWs, List.dropWhile_cons, h]

theorem parseValue_string (fuel : Nat) (s rest : List Char) (hf : s.length < fuel) :
    parseValue (fuel + 1) ('"' :: (escapeBody s ++ '"' :: rest)) =
      some (Json.str (String.mk s), rest) := by
  have hskip : skipWs ('"' :: (escapeBody s ++ '"' :: rest)) =
      '"' :: (escapeBody s ++ '"' :: rest) :=
    skipWs_cons _ _ (by decide)
  simp only [parseValue, hskip]
  rw [parseStringBody_escape s fuel rest hf]
  rfl

theorem parseJson_stringifyString (s : String) :
    parseJson (stringifyString s) = some (Json.str s) := by
  have hdata : (stringifyString s).data = '"' :: (escapeBody s.data ++ '"' :: []) := rfl
  have hflen : (stringifyString s).data.length = (escapeBody s.data).length + 2 := by
    rw [hdata]; simp
  have hval := parseValue_string (2 * (escapeBody s.data).length + 5) s.data []
    (by have := length_le_escapeBody s.data; omega)
  unfold parseJson
  rw [show 2 * (stringifyString s).data.length + 2 =
    (2 * (escapeBody s.data).length + 5) + 1 from by rw [hflen]; ring]
  simp only [hdata, hval]
  rfl

theorem rendererLine_delta (acc s : String) :
    rendererLine acc ("0:" ++ jsonStringify (Json.str s)) = acc ++ s := by
  have hdata : ("0:" ++ jsonStringify (Json.str s)).data =
      '0' :: ':' :: (stringifyString s).data := by
    rw [show jsonStringify (Json.str s) = stringifyString s from rfl, String.data_append]
    rfl
  unfold rendererLine
  rw [hdata, if_pos (by simp [List.isPrefixOf])]
  rw [show ('0' :: ':' :: (stringifyString s).data).drop 2 = (stringifyString s).data from rfl]
  rw [show String.mk (stringifyString s).data = stringifyString s from rfl]
  rw [parseJson_stringifyString]
  rfl

theorem rendererLine_not_delta (acc : String) (line : String)
    (h : ("0:".data.isPrefixOf line.data) = false) : rendererLine acc line = acc := by
  unfold rendererLine
  rw [h]
  simp

/-! ### Lemmas: protocol lines are newline-terminated, newline-free, non-blank -/

theorem hexDigitChar_ne_nl (m : Nat) (h : m < 16) : hexDigitChar m ≠ '\n' := by
  interval_cases m <;> decide

theorem nl_not_mem_escapeChar (c : Char) : '\n' ∉ escapeChar c := by
  unfold escapeChar
  split_ifs with h1 h2 h3 h4 h5 h6 h7 h8
  · decide
  · decide
  · decide
  · decide
  · decide
  · decide
  · decide
  · intro hmem
    simp only [List.mem_cons, List.not_mem_nil, or_false] at hmem
    rcases hmem with h | h | h | h | h | h
    · exact absurd h (by decide)
    · exact absurd h (by decide)
    · exact absurd h (by decide)
    · exact absurd h (by decide)
    · exact hexDigitChar_ne_nl (c.toNat / 16) (by omega) h.symm
    · exact hexDigitChar_ne_nl (c.toNat % 16) (by omega) h.symm
  · intro hmem
    simp only [List.mem_cons, List.not_mem_nil, or_false] at hmem
    rw [← hmem] at h8
    exact h8 (by decide)

theorem nl_not_mem_escapeBody (s : List Char) : '\n' ∉ escapeBody s := by
  intro h
  rw [escapeBody, List.mem_flatMap] at h
  obtain ⟨c, _, hc⟩ := h
  exact nl_not_mem_escapeChar c hc

theorem rawOf_append_nl (L : String) : String.mk (L ++ "\n").data.dropLast = L := by
  rw [String.data_append, show ("\n" : String).data = ['\n'] from rfl, List.dropLast_concat]

theorem goodNl_deltaLine (s : String) :
    GoodNl ("0:" ++ jsonStringify (Json.str s) ++ "\n") := by
  refine ⟨("0:" ++ jsonStringify (Json.str s)).data, ?_, ?_, ?_⟩
  · rw [String.data_append]
  · rw [String.data_append]
    intro h
    rcases List.mem_append.1 h with h | h
    · exact absurd h (by decide)
    · have hd : (jsonStringify (Json.str s)).data = '"' :: (escapeBody s.data ++ ['"']) := rfl
      rw [hd] at h
      rcases List.mem_cons.1 h with h | h
      · exact absurd h (by decide)
      · rcases List.mem_append.1 h with h | h
        · exact nl_not_mem_escapeBody s.data h
        · exact absurd h (by decide)
  · exact jsTrim_cons_isEmpty '0' _ (by decide)

theorem goodNl_finishLine : GoodNl finishLine := by
  refine ⟨("d:" ++ jsonStringify finishMessage).data, rfl, by decide, by decide⟩

/-! ### Lemmas: renderer fold over protocol lines -/

theorem rendererLine_finish (acc : String) :
    rendererLine acc ("d:" ++ jsonStringify finishMessage) = acc :=
  rendererLine_not_delta _ _ (by decide)

theorem empty_append_str (s : String) : "" ++ s = s :=
  String.ext (by rw [String.data_append]; rfl)

theorem foldl_rendererLine_deltas (deltas : List String) (acc : String) :
    (deltas.map (fun s => "0:" ++ jsonStringify (Json.str s))).foldl rendererLine acc =
      acc ++ concatStrings deltas := by
  induction deltas generalizing acc with
  | nil =>
    show acc = acc ++ ""
    exact (String.append_empty acc).symm
  | cons s ds ih =>
    simp only [List.map_cons, List.foldl_cons, rendererLine_delta]
    rw [ih]
    show acc ++ s ++ concatStrings ds = acc ++ (s ++ concatStrings ds)
    rw [String.append_assoc]

/-! ### Claims C1 and C7: the renderer over the reformatted protocol -/

/-- Claim C1, counterexample.  The claim asserts chunk-boundary independence
for every byte split, and that both stream loops buffer partial trailing
lines across chunks.  Neither loop buffers: fed whole, the stream of the
single delta `hello` accumulates `hello`, but split in the middle of its
`0:` line the renderer accumulates the empty string; the same mid-line split
on the reformatter side drops the delta entirely. -/
theorem c1_counterexample :
    rendererAccumChunks ["0:\"hello\"\n" ++ finishLine] = "hello" ∧
    rendererAccumChunks ["0:\"he", "llo\"\n" ++ finishLine] = "" ∧
    transformChunks
      ["data: \x7b\"choices\":[\x7b\"delta\":\x7b\"content\":\"hello\"\x7d\x7d]\x7d\n"] =
      ["0:\"hello\"\n"] ∧
    transformChunks
      ["data: \x7b\"choices\":[\x7b\"del", "ta\":\x7b\"content\":\"hello\"\x7d\x7d]\x7d\n"] =
      ([] : List String) ∧
    ("" : String) ≠ "hello" :=
  ⟨rfl, rfl, rfl, rfl, by decide⟩

/-- Claim C1, amended: for every delta sequence and every chunking whose
boundaries fall at line boundaries (each chunk a concatenation of whole
protocol lines; feeding the stream as a single chunk is the one-part case),
the final accumulated content is the concatenation of the deltas.  Splits
inside a line can drop deltas, since neither loop buffers a partial
trailing line across chunks. -/
theorem c1_line_aligned_chunk_independence (deltas : List String)
    (parts : List (List String))
    (hsplit : parts.flatten =
      deltas.map (fun s => "0:" ++ jsonStringify (Json.str s) ++ "\n") ++ [finishLine]) :
    rendererAccumChunks (parts.map concatStrings) = concatStrings deltas := by
  have hgood : ∀ L ∈ parts.flatten, GoodNl L := by
    rw [hsplit]
    intro L hL
    rcases List.mem_append.1 hL with h | h
    · obtain ⟨s, _, rfl⟩ := List.mem_map.1 h
      exact goodNl_deltaLine s
    · rw [List.mem_singleton] at h
      subst h
      exact goodNl_finishLine
  unfold rendererAccumChunks
  rw [foldl_chunks_concat rendererLine "" parts hgood, hsplit, List.map_append, List.map_map]
  have hcomp : ((fun L => String.mk L.data.dropLast) ∘
      fun s => "0:" ++ jsonStringify (Json.str s) ++ "\n") =
      fun s => "0:" ++ jsonStringify (Json.str s) := by
    funext s
    exact rawOf_append_nl _
  rw [hcomp]
  rw [show ([finishLine].map fun L => String.mk L.data.dropLast) =
      ["d:" ++ jsonStringify finishMessage] from by
    simp only [List.map_cons, List.map_nil]
    rw [show finishLine = ("d:" ++ jsonStringify finishMessage) ++ "\n" from rfl, rawOf_append_nl]]
  rw [List.foldl_append, foldl_rendererLine_deltas]
  simp only [List.foldl_cons, List.foldl_nil]
  rw [rendererLine_finish, empty_append_str]

/-- Witness for C1 (amended): the spec scenario stream, split into two
line-aligned chunks, accumulates the concatenated deltas. -/
theorem c1_witness :
    rendererAccumChunks
      ([["0:" ++ jsonStringify (Json.str "Yes") ++ "\n",
         "0:" ++ jsonStringify (Json.str ", we") ++ "\n"],
        ["0:" ++ jsonStringify (Json.str " do.") ++ "\n", finishLine]].map concatStrings) =
      concatStrings ["Yes", ", we", " do."] :=
  c1_line_aligned_chunk_independence ["Yes", ", we", " do."] _ rfl

/-- Claim C7 (confirmed): every content string the reformatter emits as a
`0:` line with its JSON string encoding is decoded by the renderer back to
exactly that string and appended to the accumulator — including embedded
quotes, backslashes, newlines and non-ASCII characters, which the escape
lemmas cover; in particular the line `0:"hello"` decodes to `hello`. -/
theorem c7_delta_token_round_trip :
    (∀ acc s : String, rendererLine acc ("0:" ++ jsonStringify (Json.str s)) = acc ++ s) ∧
    rendererLine "" "0:\"hello\"" = "hello" :=
  ⟨rendererLine_delta, rfl⟩

/-! ### Lemmas: the transform on event lines -/

theorem processLine_data (d : String) :
    processLine ("data: " ++ d) =
      if d = "[DONE]" then [finishLine]
      else
        match extractContent d with
        | some content =>
          if jsTruthy content then ["0:" ++ jsonStringify content ++ "\n"] else []
        | none => [] := by
  unfold processLine
  rw [if_pos (by
    rw [String.data_append, List.isPrefixOf_iff_prefix]
    exact List.prefix_append _ _)]
  rw [String.data_append, List.drop_left' (by decide)]

theorem line_eq_data_of_prefix (l : String) (hp : "data: ".data.isPrefixOf l.data = true) :
    l = "data: " ++ String.mk (l.data.drop 6) := by
  rw [ List.isPrefixOf_iff_prefix] at hp
  obtain ⟨t, ht⟩ := hp
  apply String.ext
  rw [String.data_append, ← ht, List.drop_left' (by decide)]

theorem processLine_emits_delta (l : String) (h : l ≠ "data: [DONE]") :
    ∀ out ∈ processLine l, "0:".data.isPrefixOf out.data = true := by
  intro out hout
  by_cases hp : "data: ".data.isPrefixOf l.data = true
  · have hl := line_eq_data_of_prefix l hp
    rw [hl, processLine_data] at hout
    have hd : String.mk (l.data.drop 6) ≠ "[DONE]" := by
      intro he
      exact h (by rw [hl, he]; rfl)
    rw [if_neg hd] at hout
    rcases hm : extractContent (String.mk (l.data.drop 6)) with _ | content
    · rw [hm] at hout
      exact absurd (hout : out ∈ ([] : List String)) (by simp)
    · rw [hm] at hout
      have hout2 : out ∈
          (if jsTruthy content = true then ["0:" ++ jsonStringify content ++ "\n"]
           else ([] : List String)) := hout
      by_cases htr : jsTruthy content = true
      · rw [if_pos htr, List.mem_singleton] at hout2
        subst hout2
        rw [ List.isPrefixOf_iff_prefix, String.data_append, String.data_append,
          List.append_assoc]
        exact List.prefix_append _ _
      · rw [if_neg htr] at hout2
        simp at hout2
  · unfold processLine at hout
    rw [if_neg hp] at hout
    simp at hout

/-! ### Claims C2 and C5: the transform on upstream event streams -/

/-- Claim C2, counterexample.  The claim asserts that after `data: [DONE]`
no further upstream lines are processed and no `0:` line can follow the
`d:` line.  The code only `continue`s past the sentinel: an event line
arriving after `[DONE]` is still processed and its `0:` line is emitted
after the terminal line. -/
theorem c2_counterexample :
    transformLines ["data: [DONE]",
      "data: \x7b\"choices\":[\x7b\"delta\":\x7b\"content\":\"x\"\x7d\x7d]\x7d"] =
      [finishLine, "0:\"x\"\n"] ∧
    "0:".data.isPrefixOf ("0:\"x\"\n").data = true ∧
    ("0:\"x\"\n" : String) ≠ finishLine :=
  ⟨rfl, rfl, by decide⟩

/-- Claim C2 (amended): for every upstream line sequence in which
`data: [DONE]` occurs only as the final line, the transform emits all delta
lines first and then exactly one terminal line; every line emitted before it
is a `0:` delta line, so no `0:` line follows the `d:` line.  The code does
not stop reading at the sentinel, so the restriction to streams with nothing
after `[DONE]` (which the provider guarantees) is necessary. -/
theorem c2_done_terminates_output (ls0 : List String) (h : "data: [DONE]" ∉ ls0) :
    transformLines (ls0 ++ ["data: [DONE]"]) = transformLines ls0 ++ [finishLine] ∧
    (∀ out ∈ transformLines ls0, "0:".data.isPrefixOf out.data = true) ∧
    (transformLines (ls0 ++ ["data: [DONE]"])).count finishLine = 1 := by
  have hdeltas : ∀ out ∈ transformLines ls0, "0:".data.isPrefixOf out.data = true := by
    intro out hout
    unfold transformLines at hout
    rw [List.mem_flatMap] at hout
    obtain ⟨l, hl, ho⟩ := hout
    exact processLine_emits_delta l (fun e => h (e ▸ hl)) out ho
  have heq : transformLines (ls0 ++ ["data: [DONE]"]) = transformLines ls0 ++ [finishLine] := by
    unfold transformLines
    rw [List.flatMap_append]
    congr 1
  refine ⟨heq, hdeltas, ?_⟩
  rw [heq, List.count_append]
  have h0 : (transformLines ls0).count finishLine = 0 := by
    rw [List.count_eq_zero]
    intro hmem
    have := hdeltas _ hmem
    exact absurd this (by decide)
  rw [h0, List.count_singleton_self]

/-- Witness for C2 (amended): one delta event followed by the sentinel. -/
theorem c2_witness :
    transformLines
        (["data: \x7b\"choices\":[\x7b\"delta\":\x7b\"content\":\"hi\"\x7d\x7d]\x7d"] ++
          ["data: [DONE]"]) =
      transformLines ["data: \x7b\"choices\":[\x7b\"delta\":\x7b\"content\":\"hi\"\x7d\x7d]\x7d"] ++
        [finishLine] ∧
    (∀ out ∈ transformLines
        ["data: \x7b\"choices\":[\x7b\"delta\":\x7b\"content\":\"hi\"\x7d\x7d]\x7d"],
      "0:".data.isPrefixOf out.data = true) ∧
    (transformLines
        (["data: \x7b\"choices\":[\x7b\"delta\":\x7b\"content\":\"hi\"\x7d\x7d]\x7d"] ++
          ["data: [DONE]"])).count finishLine = 1 :=
  c2_done_terminates_output _ (by decide)

/-- Claim C5 (confirmed): an event line whose remainder after `data: ` is
neither the sentinel nor extractable as a first-choice content value
contributes nothing to the output, and the surrounding lines are processed
exactly as they would be without it. -/
theorem c5_malformed_event_skipped (d : String) (ls1 ls2 : List String)
    (hdone : d ≠ "[DONE]") (hext : extractContent d = none) :
    transformLines (ls1 ++ ("data: " ++ d) :: ls2) =
      transformLines ls1 ++ transformLines ls2 := by
  unfold transformLines
  rw [List.flatMap_append, List.flatMap_cons, processLine_data, if_neg hdone, hext]
  simp

/-- Witness for C5: a malformed event between no lines and one valid event;
the valid event still produces its delta line. -/
theorem c5_witness :
    transformLines (([] : List String) ++ ("data: " ++ "notjson") ::
        ["data: \x7b\"choices\":[\x7b\"delta\":\x7b\"content\":\"ok\"\x7d\x7d]\x7d"]) =
      transformLines [] ++
        transformLines ["data: \x7b\"choices\":[\x7b\"delta\":\x7b\"content\":\"ok\"\x7d\x7d]\x7d"] ∧
    transformLines ["data: \x7b\"choices\":[\x7b\"delta\":\x7b\"content\":\"ok\"\x7d\x7d]\x7d"] =
      ["0:\"ok\"\n"] :=
  ⟨c5_malformed_event_skipped "notjson" [] _ (by decide) rfl, rfl⟩

/-! ### Claim C3: upstream failure handling of the route -/

/-- Claim C3 (confirmed): a non-success upstream response makes the route
return the status-500 JSON error response whose body carries an `error`
field; no streaming response is returned on that path, and `POST` consults
the single upstream response it was handed, so the upstream call is not
retried. -/
theorem c3_upstream_error_response (messages : List InMsg) (upstream : UpstreamResponse)
    (h : upstream.ok = false) :
    POST messages upstream = RouteResponse.errorJson 500 chatErrorBody ∧
    (∀ s b, POST messages upstream ≠ RouteResponse.stream s b) ∧
    parseJson chatErrorBody =
      some (Json.obj [("error", Json.str "Failed to process chat request")]) ∧
    jsGet (Json.obj [("error", Json.str "Failed to process chat request")]) "error" =
      some (Json.str "Failed to process chat request") ∧
    (400 : Nat) ≤ 500 := by
  have hpost : POST messages upstream = RouteResponse.errorJson 500 chatErrorBody := by
    unfold POST
    rw [h]
    rfl
  refine ⟨hpost, ?_, rfl, rfl, by omega⟩
  intro s b hc
  rw [hpost] at hc
  exact RouteResponse.noConfusion hc

/-- Witness for C3: a 401-style failed upstream response. -/
theorem c3_witness :
    POST [] { ok := false, bodyChunks := none } = RouteResponse.errorJson 500 chatErrorBody ∧
    (∀ s b, POST [] { ok := false, bodyChunks := none } ≠ RouteResponse.stream s b) ∧
    parseJson chatErrorBody =
      some (Json.obj [("error", Json.str "Failed to process chat request")]) ∧
    jsGet (Json.obj [("error", Json.str "Failed to process chat request")]) "error" =
      some (Json.str "Failed to process chat request") ∧
    (400 : Nat) ≤ 500 :=
  c3_upstream_error_response [] { ok := false, bodyChunks := none } rfl

/-! ### Claim C4: message normalization and the outgoing list -/

theorem foldl_append_hoist (l : List String) (a : String) :
    l.foldl (· ++ ·) a = a ++ l.foldl (· ++ ·) "" := by
  induction l generalizing a with
  | nil =>
    show a = a ++ ""
    exact (String.append_empty a).symm
  | cons s l ih =>
    simp only [List.foldl_cons]
    rw [ih (a ++ s), ih ("" ++ s), empty_append_str, String.append_assoc]

theorem join_cons_str (a : String) (l : List String) :
    String.join (a :: l) = a ++ String.join l := by
  show (a :: l).foldl (· ++ ·) "" = _
  simp only [List.foldl_cons]
  rw [empty_append_str, foldl_append_hoist]
  rfl

theorem join_eq_foldl (ps : List MsgPart) (acc : String) :
    acc ++ String.join ((ps.filter (fun p => p.type == "text")).map (fun p => p.text.getD "")) =
      (ps.filter (fun p => p.type == "text")).foldl (fun a p => a ++ p.text.getD "") acc := by
  induction ps generalizing acc with
  | nil =>
    show acc ++ String.join [] = acc
    exact String.append_empty acc
  | cons p ps ih =>
    rw [List.filter_cons]
    by_cases hp : (p.type == "text") = true
    · rw [if_pos hp]
      simp only [List.map_cons, List.foldl_cons]
      rw [join_cons_str, ← String.append_assoc, ih]
    · rw [if_neg hp]
      exact ih acc

theorem coreContent_eq_specContent (m : InMsg) : coreContent m = specContent m := by
  obtain ⟨role, content, parts⟩ := m
  cases content with
  | none =>
    show (match parts with | some ps => partsText ps | none => "") =
      specContent { role := role, content := none, parts := parts }
    unfold specContent
    rw [if_neg (by simp)]
    cases parts with
    | none => rfl
    | some ps =>
      show partsText ps =
        (ps.filter (fun p => p.type == "text")).foldl (fun acc p => acc ++ p.text.getD "") ""
      unfold partsText
      rw [← join_eq_foldl ps "", empty_append_str]
  | some c =>
    by_cases hce : c = ""
    · subst hce
      show (if ("" : String) = "" then
          (match parts with | some ps => partsText ps | none => "") else "") = _
      rw [if_pos rfl]
      unfold specContent
      rw [if_neg (by simp)]
      cases parts with
      | none => rfl
      | some ps =>
        show partsText ps =
          (ps.filter (fun p => p.type == "text")).foldl (fun acc p => acc ++ p.text.getD "") ""
        unfold partsText
        rw [← join_eq_foldl ps "", empty_append_str]
    · show (if c = "" then
          (match parts with | some ps => partsText ps | none => "") else c) = _
      rw [if_neg hce]
      unfold specContent
      rw [if_pos (by simp [hce])]
      rfl

/-- Claim C4, counterexample.  The claim takes the supplied content whenever
supplied; the code tests JavaScript truthiness, so a message whose supplied
content is the empty string falls through to its parts join: the normalized
content is `hi`, not the supplied empty string. -/
theorem c4_counterexample :
    coreMessage ({ role := "user", content := some "",
                   parts := some [{ type := "text", text := some "hi" }] }) =
      { role := "user", content := "hi" } ∧
    ("hi" : String) ≠ "" :=
  ⟨rfl, by decide⟩

/-- Claim C4 (amended): the outgoing list is the fixed system message
followed by the normalized input messages in their original order, each with
role preserved and content equal to the supplied content when non-empty,
otherwise the concatenation in document order of the text of its text-typed
parts, otherwise the empty string. -/
theorem c4_outgoing_messages (messages : List InMsg) :
    (messagesWithSystem messages).length = messages.length + 1 ∧
    (messagesWithSystem messages).head? = some { role := "system", content := SYSTEM_PROMPT } ∧
    ∀ i m, messages[i]? = some m →
      (messagesWithSystem messages)[i + 1]? =
        some { role := m.role, content := specContent m } := by
  refine ⟨by simp [messagesWithSystem, coreMessages], rfl, ?_⟩
  intro i m hm
  show ({ role := "system", content := SYSTEM_PROMPT } :: coreMessages messages)[i + 1]? = _
  rw [List.getElem?_cons_succ]
  unfold coreMessages
  rw [List.getElem?_map, hm]
  show some (coreMessage m) = _
  unfold coreMessage
  rw [coreContent_eq_specContent]

/-- Witness for C4 (amended): a two-message conversation, one direct content
and one parts-based content. -/
theorem c4_witness :
    (messagesWithSystem
        [{ role := "user", content := some "hello", parts := none },
         { role := "assistant", content := none,
           parts := some [{ type := "text", text := some "hi" }] }])[1]? =
      some { role := "user",
             content :=
               specContent ({ role := "user", content := some "hello", parts := none }) } :=
  (c4_outgoing_messages _).2.2 0 _ rfl

theorem append_pair_assoc {α : Type} (l : List α) (x y : α) :
    l ++ [x, y] = (l ++ [x]) ++ [y] :=
  (List.append_assoc l [x] [y]).symm

theorem dropLast_append_pair {α : Type} (l : List α) (x y : α) :
    (l ++ [x, y]).dropLast = l ++ [x] := by
  rw [append_pair_assoc, List.dropLast_concat]

/-! ### Claim C6: the renderer error path -/

/-- Claim C6 (confirmed): when the request of a turn fails (rejected fetch,
non-ok status, or missing body — each reaches the `catch`), the turn ends
with the placeholder assistant message — the last message of the conversation
of the turn — carrying the fixed apology as its content; the loading flag
is cleared by the `finally`; and the modelled `sendMessage` is a total
function, the failure being confined to the turn. -/
theorem c6_error_path_apology (st : ChatState) (userMessage userId assistantId : String) :
    (sendMessage st userMessage userId assistantId FetchOutcome.failure).messages =
      updateMessageContent
        (st.messages ++
          [{ id := userId, role := Role.user, content := userMessage },
           { id := assistantId, role := Role.assistant, content := "" }])
        assistantId apologyMessage ∧
    (sendMessage st userMessage userId assistantId FetchOutcome.failure).messages.getLast? =
      some { id := assistantId, role := Role.assistant, content := apologyMessage } ∧
    (sendMessage st userMessage userId assistantId FetchOutcome.failure).isLoading = false := by
  refine ⟨?_, ?_, rfl⟩
  · show updateMessageContent
        ((st.messages ++ [{ id := userId, role := Role.user, content := userMessage }]) ++
          [{ id := assistantId, role := Role.assistant, content := "" }])
        assistantId apologyMessage = _
    rw [← append_pair_assoc]
  · show (updateMessageContent
        ((st.messages ++ [{ id := userId, role := Role.user, content := userMessage }]) ++
          [{ id := assistantId, role := Role.assistant, content := "" }])
        assistantId apologyMessage).getLast? = _
    unfold updateMessageContent
    rw [List.map_append]
    simp only [List.map_cons, List.map_nil, List.getLast?_concat]
    simp

/-! ### Lemmas: stream-loop traces publish only message updates -/

theorem renderLinesTrace_setMessages (assistantId : String) (lines : List String) :
    ∀ acc : List Action × (List Message × String),
      (∀ a ∈ acc.1, ∃ m, a = Action.setMessagesA m) →
      ∀ a ∈ (lines.foldl (renderStepTrace assistantId) acc).1,
        ∃ m, a = Action.setMessagesA m := by
  induction lines with
  | nil => exact fun acc h => h
  | cons l lines ih =>
    intro acc h
    simp only [List.foldl_cons]
    apply ih
    unfold renderStepTrace
    by_cases hp : ("0:".data.isPrefixOf l.data) = true
    · rw [if_pos hp]
      cases hj : parseJson (String.mk (l.data.drop 2)) with
      | none => exact h
      | some content =>
        intro a ha
        rcases List.mem_append.1 ha with h1 | h1
        · exact h a h1
        · rw [List.mem_singleton] at h1
          exact ⟨_, h1⟩
    · rw [if_neg hp]
      exact h

theorem renderChunksTrace_setMessages (assistantId : String) (chunks : List String) :
    ∀ acc : List Action × (List Message × String),
      (∀ a ∈ acc.1, ∃ m, a = Action.setMessagesA m) →
      ∀ a ∈ (renderChunksTrace assistantId acc chunks).1,
        ∃ m, a = Action.setMessagesA m := by
  induction chunks with
  | nil => exact fun acc h => h
  | cons chunk chunks ih =>
    intro acc h
    exact ih _ (renderLinesTrace_setMessages assistantId (chunkLines chunk) acc h)

/-! ### Claim C8: the request body of a turn -/

/-- Claim C8, counterexample.  The claim says the request carries the full
conversation-so-far after both appends; the body actually sent omits the
assistant placeholder: from an empty history and user message `hi` the body
is one pair, while the post-append conversation maps to two. -/
theorem c8_counterexample :
    (sendMessageTrace { isOpen := false, input := "hi", messages := [], isLoading := false }
        "hi" "u1" "a1" (FetchOutcome.success [])).filter Action.isFetch =
      [Action.fetchA [("user", "hi")]] ∧
    ([("user", "hi")] : List (String × String)) ≠
      ([{ id := "u1", role := Role.user, content := "hi" },
        { id := "a1", role := Role.assistant, content := "" }] : List Message).map
        (fun m => (m.role.toStr, m.content)) :=
  ⟨rfl, by decide⟩

/-- Claim C8 (amended): every turn issues exactly one request, and its body
is the post-append conversation minus the final assistant placeholder — the
prior history plus the new user message — as role/content pairs in
conversation order. -/
theorem c8_request_carries_history (st : ChatState)
    (userMessage userId assistantId : String) (outcome : FetchOutcome) :
    (sendMessageTrace st userMessage userId assistantId outcome).filter Action.isFetch =
      [Action.fetchA (((st.messages ++
          ([{ id := userId, role := Role.user, content := userMessage },
            { id := assistantId, role := Role.assistant, content := "" }] :
            List Message)).dropLast).map
        (fun m => (m.role.toStr, m.content)))] := by
  have hreq : requestBody st.messages
        { id := userId, role := Role.user, content := userMessage } =
      ((st.messages ++
        ([{ id := userId, role := Role.user, content := userMessage },
          { id := assistantId, role := Role.assistant, content := "" }] :
          List Message)).dropLast).map
        (fun m => (m.role.toStr, m.content)) := by
    rw [dropLast_append_pair]
    rfl
  rw [← hreq]
  cases outcome with
  | failure =>
    simp [sendMessageTrace, Action.isFetch]
  | success chunks =>
    have hmid : ((renderChunksTrace assistantId
        ([], ((st.messages ++ [{ id := userId, role := Role.user, content := userMessage }]) ++
          [{ id := assistantId, role := Role.assistant, content := "" }], "")) chunks).1).filter
          Action.isFetch = [] := by
      rw [List.filter_eq_nil_iff]
      intro a ha
      obtain ⟨m, rfl⟩ := renderChunksTrace_setMessages assistantId chunks _ (by simp) a ha
      simp [Action.isFetch]
    simp only [sendMessageTrace, List.filter_append, hmid]
    simp [Action.isFetch]

/-! ### Claim C9: the frame of the per-id content update -/

/-- Claim C9 (confirmed): both post-append state updates of a turn (the
per-delta republish and the error-path overwrite are the same `map`) keep
the length and order of the conversation, modify only the content of entries
whose id is the target id — preserving even their id and role — and leave
every entry with a different id entirely unchanged. -/
theorem c9_update_frame (msgs : List Message) (targetId newContent : String) (i : Nat)
    (m : Message) (hm : msgs[i]? = some m) :
    (updateMessageContent msgs targetId newContent).length = msgs.length ∧
    (updateMessageContent msgs targetId newContent)[i]? =
      some (if m.id = targetId then { m with content := newContent } else m) ∧
    (m.id ≠ targetId → (updateMessageContent msgs targetId newContent)[i]? = some m) := by
  unfold updateMessageContent
  refine ⟨by simp, ?_, ?_⟩
  · rw [List.getElem?_map, hm]
    rfl
  · intro hne
    rw [List.getElem?_map, hm]
    simp [if_neg hne]

/-- Witness for C9: a two-message list where the second is the placeholder;
the first, with a different id, is untouched. -/
theorem c9_witness :
    (updateMessageContent
        [{ id := "u1", role := Role.user, content := "hi" },
         { id := "a1", role := Role.assistant, content := "" }] "a1" "y").length =
      ([{ id := "u1", role := Role.user, content := "hi" },
        { id := "a1", role := Role.assistant, content := "" }] : List Message).length ∧
    (updateMessageContent
        [{ id := "u1", role := Role.user, content := "hi" },
         { id := "a1", role := Role.assistant, content := "" }] "a1" "y")[0]? =
      some { id := "u1", role := Role.user, content := "hi" } :=
  ⟨(c9_update_frame _ "a1" "y" 0 { id := "u1", role := Role.user, content := "hi" } rfl).1,
   (c9_update_frame _ "a1" "y" 0 { id := "u1", role := Role.user, content := "hi" } rfl).2.2
     (by decide)⟩

/-! ### Claim C10: the turn gate and the loading flag -/

/-- Claim C10 (confirmed): every form submission either performs no state
interaction at all, or is a full turn whose trace sets the loading flag
before the single network request and whose final action clears it (on both
the success and the failure path), with every intermediate action a message
republish; the final state always has the flag cleared or is unchanged; and
when the trimmed input is empty or a turn is already loading, submission
appends no message, issues no request, and leaves the state unchanged. -/
theorem c10_turn_gate (st : ChatState) (userId assistantId : String) (outcome : FetchOutcome) :
    (handleSubmitTrace st userId assistantId outcome = [] ∨
      ∃ mid,
        handleSubmitTrace st userId assistantId outcome =
          [Action.setMessagesA (st.messages ++
             [{ id := userId, role := Role.user, content := st.input }]),
           Action.setLoadingA true,
           Action.setMessagesA (st.messages ++
             [{ id := userId, role := Role.user, content := st.input },
              { id := assistantId, role := Role.assistant, content := "" }]),
           Action.fetchA (requestBody st.messages
             { id := userId, role := Role.user, content := st.input })] ++
          mid ++ [Action.setLoadingA false] ∧
        ∀ a ∈ mid, ∃ m, a = Action.setMessagesA m) ∧
    (handleSubmit st userId assistantId outcome = st ∨
      (handleSubmit st userId assistantId outcome).isLoading = false) ∧
    ((jsTrim st.input.data).isEmpty = true ∨ st.isLoading = true →
      handleSubmit st userId assistantId outcome = st ∧
        handleSubmitTrace st userId assistantId outcome = []) := by
  by_cases hg : ((jsTrim st.input.data).isEmpty || st.isLoading) = true
  · have htr : handleSubmitTrace st userId assistantId outcome = [] := by
      unfold handleSubmitTrace
      rw [if_pos hg]
    have hst : handleSubmit st userId assistantId outcome = st := by
      unfold handleSubmit
      rw [if_pos hg]
    exact ⟨Or.inl htr, Or.inl hst, fun _ => ⟨hst, htr⟩⟩
  · have htr : handleSubmitTrace st userId assistantId outcome =
        sendMessageTrace st st.input userId assistantId outcome := by
      unfold handleSubmitTrace
      rw [if_neg hg]
    refine ⟨Or.inr ?_, Or.inr ?_, fun hc => ?_⟩
    · cases outcome with
      | failure =>
        refine ⟨[Action.setMessagesA (updateMessageContent
            (st.messages ++
              [{ id := userId, role := Role.user, content := st.input },
               { id := assistantId, role := Role.assistant, content := "" }])
            assistantId apologyMessage)], ?_, ?_⟩
        · rw [htr]
          unfold sendMessageTrace
          rw [append_pair_assoc st.messages
            { id := userId, role := Role.user, content := st.input }
            { id := assistantId, role := Role.assistant, content := "" }]
        · intro a ha
          rw [List.mem_singleton] at ha
          exact ⟨_, ha⟩
      | success chunks =>
        refine ⟨(renderChunksTrace assistantId
            ([], (st.messages ++
              [{ id := userId, role := Role.user, content := st.input },
               { id := assistantId, role := Role.assistant, content := "" }], ""))
            chunks).1, ?_, ?_⟩
        · rw [htr]
          unfold sendMessageTrace
          rw [append_pair_assoc st.messages
            { id := userId, role := Role.user, content := st.input }
            { id := assistantId, role := Role.assistant, content := "" }]
        · exact renderChunksTrace_setMessages assistantId chunks _ (by simp)
    · unfold handleSubmit
      rw [if_neg hg]
      cases outcome <;> rfl
    · exfalso
      rcases hc with hc | hc <;> simp [hc] at hg

/-- Witness for C10: a whitespace-only input is rejected without touching the
state or issuing any action. -/
theorem c10_witness :
    handleSubmit { isOpen := true, input := " ", messages := [], isLoading := false }
        "u1" "a1" FetchOutcome.failure =
      { isOpen := true, input := " ", messages := [], isLoading := false } ∧
    handleSubmitTrace { isOpen := true, input := " ", messages := [], isLoading := false }
        "u1" "a1" FetchOutcome.failure = [] :=
  (c10_turn_gate { isOpen := true, input := " ", messages := [], isLoading := false }
    "u1" "a1" FetchOutcome.failure).2.2 (Or.inl (by decide))

end ChatBots
